import Mathlib

/-!
# Verification of the covid19 anomaly-detection core

Shallow embedding of `src/anomaly_detection.py`: two pure detectors over a
univariate time series.  A series is a list of `(timestamp, value)` pairs in
chronological order; a missing value (`NaN` in the source) is `none`.  Values
are modelled as rationals so that quantile interpolation is exact and
executable.
-/

namespace AnomalyDetection

/-- A pandas `Series`: ordered `(timestamp, value)` pairs, `none` = NaN. -/
abbrev Series (τ : Type) := List (τ × Option ℚ)

/-- `r.dropna()`: remove missing entries, keeping order; the surviving values
become adjacent. -/
def dropna {τ : Type} (r : Series τ) : List (τ × ℚ) :=
  r.filterMap (fun p => p.2.map (fun v => (p.1, v)))

/-- Model of `pandas.Series.quantile(q)` with the default `linear`
interpolation (the same rule as `numpy.percentile`): sort the values, take
position `p = q * (n - 1)` (0-indexed) and linearly interpolate between the
order statistics at `⌊p⌋` and `⌊p⌋ + 1`. -/
def quantileLinear (l : List ℚ) (q : ℚ) : ℚ :=
  let s := l.insertionSort (· ≤ ·)
  let p : ℚ := q * ((l.length : ℚ) - 1)
  let i : ℕ := (Int.floor p).toNat
  let lo := s.getD i 0
  let hi := s.getD (i + 1) lo
  lo + (p - (i : ℚ)) * (hi - lo)

/-- The quantile exactly as the specification words it: position `q × (n−1)`
in the sorted array, interpolating between the adjacent ranks `⌊p⌋` and `⌈p⌉`
when the position is non-integer. -/
def specQuantile (l : List ℚ) (q : ℚ) : ℚ :=
  (l.insertionSort (· ≤ ·)).getD (Int.floor (q * ((l.length : ℚ) - 1))).toNat 0
    + (q * ((l.length : ℚ) - 1)
        - ((Int.floor (q * ((l.length : ℚ) - 1))).toNat : ℚ))
      * ((l.insertionSort (· ≤ ·)).getD (Int.ceil (q * ((l.length : ℚ) - 1))).toNat 0
        - (l.insertionSort (· ≤ ·)).getD (Int.floor (q * ((l.length : ℚ) - 1))).toNat 0)

/-- The interpolation kernel shared by the two quantile formulations:
`quantileLinear l q = interpAt (sorted l) (q * (n - 1))`. -/
def interpAt (s : List ℚ) (p : ℚ) : ℚ :=
  s.getD (Int.floor p).toNat 0 +
    (p - (((Int.floor p).toNat : ℕ) : ℚ)) *
      (s.getD ((Int.floor p).toNat + 1) (s.getD (Int.floor p).toNat 0) -
        s.getD (Int.floor p).toNat 0)

/-- `detect_type1_spike_up(r, q_up)`:
```
r = r.dropna()
if len(r) < 5: return []
th = r.quantile(q_up)
idx = r.index[r > th]
return list(idx)
``` -/
def detect_type1_spike_up {τ : Type} (r : Series τ) (q_up : ℚ) : List τ :=
  let r' := dropna r
  if r'.length < 5 then []
  else
    let th := quantileLinear (r'.map Prod.snd) q_up
    (r'.filter (fun p => decide (th < p.2))).map Prod.fst

/-- `r.astype(float).dropna()` as it appears in `detect_type2_turn_patterns`:
the cleaned series, still carrying `Option` values so that the `pd.isna`
re-checks inside the scan loop can be modelled faithfully. -/
def cleanedOf {τ : Type} (r : Series τ) : Series τ :=
  r.filter (fun p => p.2.isSome)

/-- `g.iloc[i]` on the cleaned series: `none` when the position is out of
range or the stored value is missing. -/
def gAt {τ : Type} (cs : Series τ) (i : ℕ) : Option ℚ :=
  (cs[i]?).bind Prod.snd

/-- `h = g.diff()`: `h[i] = g[i] - g[i-1]`, with `h[0]` undefined (NaN). -/
def hAt {τ : Type} (cs : Series τ) (i : ℕ) : Option ℚ :=
  if i = 0 then none
  else
    match gAt cs i, gAt cs (i - 1) with
    | some a, some b => some (a - b)
    | _, _ => none

/-- The defined values of `h.abs()` (pandas quantile skips the NaN `h[0]`). -/
def absDiffs {τ : Type} (cs : Series τ) : List ℚ :=
  (List.range cs.length).filterMap (fun i => (hAt cs i).map (fun x => |x|))

/-- `abs_g = g.abs().dropna()`. -/
def absVals {τ : Type} (cs : Series τ) : List ℚ :=
  cs.filterMap (fun p => p.2.map (fun v => |v|))

/-- `th_h = h.abs().quantile(q_h) if h.notna().any() else np.inf`; `none`
models `np.inf` (the turn condition can then never fire). -/
def thHOf {τ : Type} (cs : Series τ) (q_h : ℚ) : Option ℚ :=
  if absDiffs cs = [] then none else some (quantileLinear (absDiffs cs) q_h)

/-- `th_flat = abs_g.quantile(q_flat) if len(abs_g) else 0.0`. -/
def thFlatOf {τ : Type} (cs : Series τ) (q_flat : ℚ) : ℚ :=
  if absVals cs = [] then 0 else quantileLinear (absVals cs) q_flat

/-- `th_trend = abs_g.quantile(q_trend) if len(abs_g) else 0.0` followed by
`th_trend = max(th_trend, th_flat * 1.1)`. -/
def thTrendOf {τ : Type} (cs : Series τ) (q_flat q_trend : ℚ) : ℚ :=
  max (if absVals cs = [] then 0 else quantileLinear (absVals cs) q_trend)
    (thFlatOf cs q_flat * (11 / 10))

/-- The inner `trend_label(mu)` classifier. -/
def trend_label (th_flat th_trend mu : ℚ) : String :=
  if |mu| ≤ th_flat then "flat"
  else if th_trend ≤ mu then "up"
  else if mu ≤ -th_trend then "down"
  else "flat"

/-- `g.iloc[a:b].mean()`: pandas `mean` skips NaN and returns NaN (`none`)
on an empty or all-NaN slice. -/
def sliceMean {τ : Type} (cs : Series τ) (a b : ℕ) : Option ℚ :=
  let vs := ((cs.drop a).take (b - a)).filterMap Prod.snd
  if vs = [] then none else some (vs.sum / (vs.length : ℚ))

/-- `trend_label` applied to a pandas mean: a NaN mean (`none`) makes every
comparison in `trend_label` false, so the final `else` returns `'flat'`. -/
def labelOfMean (th_flat th_trend : ℚ) : Option ℚ → String
  | none => "flat"
  | some mu => trend_label th_flat th_trend mu

/-- One iteration of the scan loop of `detect_type2_turn_patterns` at
position `t_pos`, reduced to the bucket (if any) it appends to:
```
g_prev = g.iloc[t_pos - 1]; g_curr = g.iloc[t_pos]; h_curr = h.iloc[t_pos]
if pd.isna(g_prev) or pd.isna(g_curr) or pd.isna(h_curr): continue
turn_cond = (g_prev * g_curr <= 0) and (abs(h_curr) >= th_h)
if not turn_cond: continue
pre_mu = g.iloc[max(0, t_pos - w_pre): t_pos].mean()
post_mu = g.iloc[t_pos + 1: min(len(g), t_pos + 1 + w_post)].mean()
```
followed by the four-way `if/elif` on the two labels. -/
def bucketAt {τ : Type} (cs : Series τ) (thH : Option ℚ) (th_flat th_trend : ℚ)
    (w_pre w_post : ℕ) (t_pos : ℕ) : Option String :=
  match gAt cs (t_pos - 1), gAt cs t_pos, hAt cs t_pos with
  | some g_prev, some g_curr, some h_curr =>
    let turn_cond : Bool := decide (g_prev * g_curr ≤ 0) &&
      (match thH with
       | none => false
       | some th => decide (th ≤ |h_curr|))
    if turn_cond then
      let pre_lbl := labelOfMean th_flat th_trend (sliceMean cs (t_pos - w_pre) t_pos)
      let post_lbl := labelOfMean th_flat th_trend
        (sliceMean cs (t_pos + 1) (min cs.length (t_pos + 1 + w_post)))
      if pre_lbl = "down" ∧ post_lbl = "flat" then some "down_turn_flat"
      else if pre_lbl = "flat" ∧ post_lbl = "down" then some "flat_turn_down"
      else if pre_lbl = "flat" ∧ post_lbl = "up" then some "flat_turn_up"
      else if pre_lbl = "up" ∧ post_lbl = "flat" then some "up_turn_flat"
      else none
    else none
  | _, _, _ => none

/-- `labels[key].append(t)` on a `defaultdict(list)`: append to the entry if
the key has been materialized, otherwise materialize it (insertion order, as
for a Python dict). -/
def ddAppend {τ : Type} : List (String × List τ) → String → τ → List (String × List τ)
  | [], k, t => [(k, [t])]
  | p :: rest, k, t =>
    if p.1 = k then (p.1, p.2 ++ [t]) :: rest else p :: ddAppend rest k t

/-- Reading `labels[key]` from the returned mapping: a missing key reads as
the empty list (the `defaultdict(list)` default factory). -/
def ddLookup {τ : Type} : List (String × List τ) → String → List τ
  | [], _ => []
  | p :: rest, k => if p.1 = k then p.2 else ddLookup rest k

/-- The keys the returned mapping has materialized, in insertion order. -/
def ddKeys {τ : Type} (d : List (String × List τ)) : List String :=
  d.map Prod.fst

/-- The four pattern names of the classifier. -/
def fourPatternNames : List String :=
  ["down_turn_flat", "flat_turn_down", "flat_turn_up", "up_turn_flat"]

/-- The timestamp/bucket pair (if any) produced at scan position `t_pos`:
`t = r.index[t_pos]` together with the bucket `bucketAt` selects. -/
def hitOf {τ : Type} (cs : Series τ) (thH : Option ℚ) (th_flat th_trend : ℚ)
    (w_pre w_post : ℕ) (t_pos : ℕ) : Option (String × τ) :=
  match (cs[t_pos]?), bucketAt cs thH th_flat th_trend w_pre w_post t_pos with
  | some p, some k => some (k, p.1)
  | _, _ => none

/-- `detect_type2_turn_patterns(r, w_pre, w_post, q_h, q_flat, q_trend)`:
clean the series, return an empty `defaultdict(list)` when fewer than
`w_pre + w_post + 4` points remain, otherwise derive the three thresholds
once and scan positions `range(1, len(r) - 1)`, appending each detected
turn's timestamp to its pattern bucket. -/
def detect_type2_turn_patterns {τ : Type} (r : Series τ) (w_pre w_post : ℕ)
    (q_h q_flat q_trend : ℚ) : List (String × List τ) :=
  let cs := cleanedOf r
  if cs.length < w_pre + w_post + 4 then []
  else
    let thH := thHOf cs q_h
    let th_flat := thFlatOf cs q_flat
    let th_trend := thTrendOf cs q_flat q_trend
    (List.range' 1 (cs.length - 2)).foldl
      (fun labels t_pos =>
        match hitOf cs thH th_flat th_trend w_pre w_post t_pos with
        | some kt => ddAppend labels kt.1 kt.2
        | none => labels)
      []

/-- Concrete fixture: spec scenario 1, the series `[1,1,1,1,1,1,50]`. -/
def scenario1 : Series ℕ :=
  [(0, some 1), (1, some 1), (2, some 1), (3, some 1), (4, some 1),
   (5, some 1), (6, some 50)]

/-- Concrete fixture: a strictly increasing 20-point series that crosses
zero with a large step at position 1. -/
def crossingRise : Series ℕ :=
  [(0, some (-100)), (1, some 1), (2, some 2), (3, some 3), (4, some 4),
   (5, some 5), (6, some 6), (7, some 7), (8, some 8), (9, some 9),
   (10, some 10), (11, some 11), (12, some 12), (13, some 13), (14, some 14),
   (15, some 15), (16, some 16), (17, some 17), (18, some 18), (19, some 19)]

/-- Concrete fixture: a strictly increasing, strictly positive 20-point
series. -/
def twentyPos : Series ℕ :=
  [(0, some 1), (1, some 2), (2, some 3), (3, some 4), (4, some 5),
   (5, some 6), (6, some 7), (7, some 8), (8, some 9), (9, some 10),
   (10, some 11), (11, some 12), (12, some 13), (13, some 14), (14, some 15),
   (15, some 16), (16, some 17), (17, some 18), (18, some 19), (19, some 20)]

/-- Concrete fixture: a short series with one missing value. -/
def withGap : Series ℕ := [(0, some 1), (1, none), (2, some 2)]

/-- Concrete fixture: `withGap` with the missing entry removed. -/
def withoutGap : Series ℕ := [(0, some 1), (2, some 2)]

/-! ## Basic facts about the sorted list and `dropna` -/

lemma insertionSort_length (l : List ℚ) :
    (l.insertionSort (· ≤ ·)).length = l.length :=
  (List.perm_insertionSort _ l).length_eq

lemma insertionSort_sorted (l : List ℚ) :
    (l.insertionSort (· ≤ ·)).Sorted (· ≤ ·) :=
  List.sorted_insertionSort _ l

lemma sorted_getD_mono {s : List ℚ} (hs : s.Sorted (· ≤ ·)) {i j : ℕ}
    (hij : i ≤ j) (hj : j < s.length) : s.getD i 0 ≤ s.getD j 0 := by
  have hi : i < s.length := Nat.lt_of_le_of_lt hij hj
  rcases Nat.eq_or_lt_of_le hij with rfl | hlt
  · exact le_rfl
  · rw [List.getD_eq_getElem _ _ hi, List.getD_eq_getElem _ _ hj]
    have h := hs.rel_get_of_lt (a := ⟨i, hi⟩) (b := ⟨j, hj⟩) hlt
    simpa using h

lemma sorted_getD_succ_default {s : List ℚ} (hs : s.Sorted (· ≤ ·)) {i : ℕ}
    (hi : i < s.length) : s.getD i 0 ≤ s.getD (i + 1) (s.getD i 0) := by
  by_cases hb : i + 1 < s.length
  · have e : s.getD (i + 1) (s.getD i 0) = s.getD (i + 1) 0 := by
      rw [List.getD_eq_getElem _ _ hb, List.getD_eq_getElem _ _ hb]
    rw [e]
    exact sorted_getD_mono hs (Nat.le_succ i) hb
  · have e : s.getD (i + 1) (s.getD i 0) = s.getD i 0 :=
      List.getD_eq_default _ _ (by omega)
    rw [e]

lemma dropna_nil {τ : Type} : dropna ([] : Series τ) = [] := rfl

lemma dropna_cons_none {τ : Type} (t : τ) (r : Series τ) :
    dropna ((t, none) :: r) = dropna r := rfl

lemma dropna_cons_some {τ : Type} (t : τ) (v : ℚ) (r : Series τ) :
    dropna ((t, some v) :: r) = (t, v) :: dropna r := rfl

lemma dropna_map_fst_sublist {τ : Type} (r : Series τ) :
    ((dropna r).map Prod.fst).Sublist (r.map Prod.fst) := by
  induction r with
  | nil => simp [dropna_nil]
  | cons p r ih =>
    obtain ⟨t, v⟩ := p
    cases v with
    | none => simpa [dropna_cons_none] using ih.cons t
    | some v => simpa [dropna_cons_some] using ih.cons₂ t

lemma mem_dropna {τ : Type} {r : Series τ} {p : τ × ℚ} :
    p ∈ dropna r ↔ (p.1, some p.2) ∈ r := by
  induction r with
  | nil => simp [dropna_nil]
  | cons a r ih =>
    obtain ⟨t, v⟩ := a
    cases v with
    | none =>
      rw [dropna_cons_none]
      simp only [List.mem_cons, ih]
      constructor
      · exact Or.inr
      · rintro (h | h)
        · exact absurd (congrArg Prod.snd h) (by simp)
        · exact h
    | some v =>
      rw [dropna_cons_some]
      simp only [List.mem_cons, ih]
      constructor
      · rintro (rfl | h)
        · exact Or.inl rfl
        · exact Or.inr h
      · rintro (h | h)
        · left
          obtain ⟨t', v'⟩ := p
          simp only [Prod.mk.injEq] at h ⊢
          exact ⟨h.1, by simpa using h.2⟩
        · exact Or.inr h

/-! ## The interpolated quantile: monotone in `q`, and it agrees with the
specification's floor/ceil formulation -/

lemma quantileLinear_eq_interpAt (l : List ℚ) (q : ℚ) :
    quantileLinear l q = interpAt (l.insertionSort (· ≤ ·)) (q * ((l.length : ℚ) - 1)) :=
  rfl

lemma interpAt_mono {s : List ℚ} (hs : s.Sorted (· ≤ ·)) {p1 p2 : ℚ}
    (h0 : 0 ≤ p1) (h12 : p1 ≤ p2) (h2 : p2 ≤ (s.length : ℚ) - 1) :
    interpAt s p1 ≤ interpAt s p2 := by
  have h02 : 0 ≤ p2 := h0.trans h12
  simp only [interpAt]
  set i1 := (Int.floor p1).toNat with hi1def
  set i2 := (Int.floor p2).toNat with hi2def
  have e1 : ((i1 : ℤ)) = Int.floor p1 := Int.toNat_of_nonneg (Int.floor_nonneg.mpr h0)
  have e2 : ((i2 : ℤ)) = Int.floor p2 := Int.toNat_of_nonneg (Int.floor_nonneg.mpr h02)
  have l1 : (i1 : ℚ) ≤ p1 := by
    have h := Int.floor_le p1
    rw [← e1] at h
    exact_mod_cast h
  have u1 : p1 < (i1 : ℚ) + 1 := by
    have h := Int.lt_floor_add_one p1
    rw [← e1] at h
    exact_mod_cast h
  have l2 : (i2 : ℚ) ≤ p2 := by
    have h := Int.floor_le p2
    rw [← e2] at h
    exact_mod_cast h
  have u2 : p2 < (i2 : ℚ) + 1 := by
    have h := Int.lt_floor_add_one p2
    rw [← e2] at h
    exact_mod_cast h
  have hi2n : i2 < s.length := by
    have h : (i2 : ℚ) < (s.length : ℚ) := by linarith
    exact_mod_cast h
  have h12i : i1 ≤ i2 := by
    have h : (i1 : ℚ) < (i2 : ℚ) + 1 := by linarith
    have h' : i1 < i2 + 1 := by exact_mod_cast h
    omega
  rcases Nat.eq_or_lt_of_le h12i with heq | hlt
  · -- both positions fall in the same interpolation cell
    rw [heq]
    rw [heq] at l1 u1
    have hlohi : s.getD i2 0 ≤ s.getD (i2 + 1) (s.getD i2 0) :=
      sorted_getD_succ_default hs hi2n
    have h := mul_le_mul_of_nonneg_right (sub_le_sub_right h12 (i2 : ℚ))
      (sub_nonneg.mpr hlohi)
    linarith
  · -- strictly later cell: go through the order statistics between them
    have hi1n : i1 + 1 < s.length := by omega
    have hi1n' : i1 < s.length := by omega
    have step1 : s.getD i1 0 + (p1 - (i1 : ℚ)) *
        (s.getD (i1 + 1) (s.getD i1 0) - s.getD i1 0) ≤ s.getD (i1 + 1) 0 := by
      have hd : s.getD (i1 + 1) (s.getD i1 0) = s.getD (i1 + 1) 0 := by
        rw [List.getD_eq_getElem _ _ hi1n, List.getD_eq_getElem _ _ hi1n]
      rw [hd]
      have hl : s.getD i1 0 ≤ s.getD (i1 + 1) 0 := sorted_getD_mono hs (Nat.le_succ i1) hi1n
      nlinarith [mul_le_mul_of_nonneg_right u1.le (sub_nonneg.mpr hl)]
    have step2 : s.getD (i1 + 1) 0 ≤ s.getD i2 0 := sorted_getD_mono hs (by omega) hi2n
    have step3 : s.getD i2 0 ≤ s.getD i2 0 + (p2 - (i2 : ℚ)) *
        (s.getD (i2 + 1) (s.getD i2 0) - s.getD i2 0) := by
      have hlohi : s.getD i2 0 ≤ s.getD (i2 + 1) (s.getD i2 0) :=
        sorted_getD_succ_default hs hi2n
      nlinarith [mul_nonneg (sub_nonneg.mpr l2) (sub_nonneg.mpr hlohi)]
    linarith

lemma quantileLinear_mono {l : List ℚ} (hl : l ≠ []) {q1 q2 : ℚ}
    (h0 : 0 ≤ q1) (h12 : q1 ≤ q2) (h1 : q2 ≤ 1) :
    quantileLinear l q1 ≤ quantileLinear l q2 := by
  have hn : 1 ≤ l.length := List.length_pos.mpr hl
  have hnq : (1 : ℚ) ≤ (l.length : ℚ) := by exact_mod_cast hn
  rw [quantileLinear_eq_interpAt, quantileLinear_eq_interpAt]
  apply interpAt_mono (insertionSort_sorted l)
  · exact mul_nonneg h0 (by linarith)
  · exact mul_le_mul_of_nonneg_right h12 (by linarith)
  · rw [insertionSort_length]
    nlinarith

lemma specQuantile_eq_quantileLinear {l : List ℚ} (hl : l ≠ []) {q : ℚ}
    (h0 : 0 ≤ q) (h1 : q ≤ 1) : specQuantile l q = quantileLinear l q := by
  have hn : 1 ≤ l.length := List.length_pos.mpr hl
  have hnq : (1 : ℚ) ≤ (l.length : ℚ) := by exact_mod_cast hn
  rw [quantileLinear_eq_interpAt]
  rw [show specQuantile l q
      = (l.insertionSort (· ≤ ·)).getD
          (Int.floor (q * ((l.length : ℚ) - 1))).toNat 0
        + (q * ((l.length : ℚ) - 1)
            - ((Int.floor (q * ((l.length : ℚ) - 1))).toNat : ℚ))
          * ((l.insertionSort (· ≤ ·)).getD
              (Int.ceil (q * ((l.length : ℚ) - 1))).toNat 0
            - (l.insertionSort (· ≤ ·)).getD
                (Int.floor (q * ((l.length : ℚ) - 1))).toNat 0) from rfl]
  rw [show interpAt (l.insertionSort (· ≤ ·)) (q * ((l.length : ℚ) - 1))
      = (l.insertionSort (· ≤ ·)).getD
          (Int.floor (q * ((l.length : ℚ) - 1))).toNat 0
        + (q * ((l.length : ℚ) - 1)
            - ((Int.floor (q * ((l.length : ℚ) - 1))).toNat : ℚ))
          * ((l.insertionSort (· ≤ ·)).getD
              ((Int.floor (q * ((l.length : ℚ) - 1))).toNat + 1)
              ((l.insertionSort (· ≤ ·)).getD
                (Int.floor (q * ((l.length : ℚ) - 1))).toNat 0)
            - (l.insertionSort (· ≤ ·)).getD
                (Int.floor (q * ((l.length : ℚ) - 1))).toNat 0) from rfl]
  set s := l.insertionSort (· ≤ ·) with hsdef
  set p : ℚ := q * ((l.length : ℚ) - 1) with hp
  have hp0 : 0 ≤ p := mul_nonneg h0 (by linarith)
  have hpn : p ≤ (l.length : ℚ) - 1 := by nlinarith
  have e1 : (((Int.floor p).toNat : ℤ)) = Int.floor p :=
    Int.toNat_of_nonneg (Int.floor_nonneg.mpr hp0)
  by_cases hfr : p = (((Int.floor p).toNat : ℕ) : ℚ)
  · -- integer position: the interpolation factor vanishes on both sides
    rw [← hfr]
    ring
  · -- non-integer position: the adjacent rank is `⌊p⌋ + 1` and it is in range
    have hlt : (((Int.floor p).toNat : ℕ) : ℚ) < p := by
      rcases lt_or_eq_of_le (show (((Int.floor p).toNat : ℕ) : ℚ) ≤ p by
        have h := Int.floor_le p
        rw [← e1] at h
        exact_mod_cast h) with h | h
      · exact h
      · exact absurd h.symm hfr
    have hceil : Int.ceil p = Int.floor p + 1 := by
      rw [Int.ceil_eq_iff]
      constructor
      · push_cast
        have he : ((Int.floor p : ℤ) : ℚ) = (((Int.floor p).toNat : ℕ) : ℚ) := by
          exact_mod_cast e1.symm
        rw [he]
        linarith
      · push_cast
        exact (Int.lt_floor_add_one p).le
    have hceilNat : (Int.ceil p).toNat = (Int.floor p).toNat + 1 := by
      rw [hceil]
      omega
    -- `p < n - 1`, hence `⌊p⌋ + 1 ≤ n - 1 < n`
    have hpstrict : p < (l.length : ℚ) - 1 := by
      rcases lt_or_eq_of_le hpn with h | h
      · exact h
      · exfalso
        apply hfr
        have hcast : (((l.length - 1 : ℕ)) : ℚ) = (l.length : ℚ) - 1 := by
          rw [Nat.cast_sub hn, Nat.cast_one]
        rw [h, ← hcast, Int.floor_natCast]
        simp
    have hbound : (Int.floor p).toNat + 1 < s.length := by
      rw [hsdef, insertionSort_length]
      have h : ((((Int.floor p).toNat : ℕ) : ℚ)) + 1 < (l.length : ℚ) := by
        have := lt_trans hlt hpstrict
        linarith
      exact_mod_cast h
    rw [hceilNat, List.getD_eq_getElem _ _ hbound,
      List.getD_eq_getElem s (s.getD (Int.floor p).toNat 0) hbound]

/-! ## The spike detector: claims C1, C5, C6 -/

/-- C5: for every input series with fewer than 5 non-missing points, and for
every value of the quantile parameter, `detect_type1_spike_up` returns the
empty sequence. -/
theorem spike_insufficient_data {τ : Type} (r : Series τ) (q_up : ℚ)
    (h : (dropna r).length < 5) : detect_type1_spike_up r q_up = [] := by
  simp [detect_type1_spike_up, h]

theorem spike_insufficient_data_witness :
    (dropna ([(0, some 1), (1, none), (2, some 2), (3, some 3), (4, some 4)] :
      Series ℕ)).length < 5 ∧
    detect_type1_spike_up
      ([(0, some 1), (1, none), (2, some 2), (3, some 3), (4, some 4)] : Series ℕ)
      (99 / 100) = [] :=
  ⟨by with_unfolding_all decide,
    spike_insufficient_data _ _ (by with_unfolding_all decide)⟩

lemma map_snd_dropna_ne_nil {τ : Type} {r : Series τ} (h5 : 5 ≤ (dropna r).length) :
    (dropna r).map Prod.snd ≠ [] := by
  intro hemp
  have h : (dropna r).length = 0 := by simpa using congrArg List.length hemp
  omega

/-- C1: with at least 5 non-missing points and a quantile parameter in
`[0,1]`, `detect_type1_spike_up` returns exactly the timestamps, in original
chronological order, whose values are strictly greater than the
linear-interpolation quantile of the non-missing values; the quantile used
agrees with the specification's order-statistics formula at position
`q × (n−1)`. -/
theorem spike_exact_characterization {τ : Type} (r : Series τ) (q_up : ℚ)
    (h5 : 5 ≤ (dropna r).length) (h0 : 0 ≤ q_up) (h1 : q_up ≤ 1) :
    detect_type1_spike_up r q_up
        = ((dropna r).filter
            (fun p =>
              decide (quantileLinear ((dropna r).map Prod.snd) q_up < p.2))).map
            Prod.fst
      ∧ quantileLinear ((dropna r).map Prod.snd) q_up
          = specQuantile ((dropna r).map Prod.snd) q_up
      ∧ (detect_type1_spike_up r q_up).Sublist (r.map Prod.fst) := by
  have hg : ¬ (dropna r).length < 5 := by omega
  have hne := map_snd_dropna_ne_nil h5
  have heq : detect_type1_spike_up r q_up
      = ((dropna r).filter
          (fun p =>
            decide (quantileLinear ((dropna r).map Prod.snd) q_up < p.2))).map
          Prod.fst := by
    simp only [detect_type1_spike_up]
    rw [if_neg hg]
  refine ⟨heq, (specQuantile_eq_quantileLinear hne h0 h1).symm, ?_⟩
  rw [heq]
  exact (List.Sublist.map Prod.fst (List.filter_sublist _)).trans
    (dropna_map_fst_sublist r)

theorem spike_exact_characterization_witness :
    5 ≤ (dropna scenario1).length ∧ (0 : ℚ) ≤ 99 / 100 ∧ (99 : ℚ) / 100 ≤ 1 ∧
    (detect_type1_spike_up scenario1 (99 / 100)
        = ((dropna scenario1).filter
            (fun p =>
              decide (quantileLinear ((dropna scenario1).map Prod.snd) (99 / 100)
                < p.2))).map Prod.fst
      ∧ quantileLinear ((dropna scenario1).map Prod.snd) (99 / 100)
          = specQuantile ((dropna scenario1).map Prod.snd) (99 / 100)
      ∧ (detect_type1_spike_up scenario1 (99 / 100)).Sublist
          (scenario1.map Prod.fst)) :=
  ⟨by with_unfolding_all decide, by norm_num, by norm_num,
    spike_exact_characterization _ _ (by with_unfolding_all decide)
      (by norm_num) (by norm_num)⟩

/-- C6: the spike detector is monotone in the quantile parameter — for
`q1 ≤ q2` (both in `[0,1]`) the `q2` result is a sublist (hence a subset, of
no greater length) of the `q1` result. -/
theorem spike_monotone_in_quantile {τ : Type} (r : Series τ) (q1 q2 : ℚ)
    (h0 : 0 ≤ q1) (h12 : q1 ≤ q2) (h1 : q2 ≤ 1) :
    (detect_type1_spike_up r q2).Sublist (detect_type1_spike_up r q1)
      ∧ detect_type1_spike_up r q2 ⊆ detect_type1_spike_up r q1
      ∧ (detect_type1_spike_up r q2).length ≤ (detect_type1_spike_up r q1).length := by
  have hsub : (detect_type1_spike_up r q2).Sublist (detect_type1_spike_up r q1) := by
    by_cases hg : (dropna r).length < 5
    · simp [detect_type1_spike_up, hg]
    · have hne : (dropna r).map Prod.snd ≠ [] := map_snd_dropna_ne_nil (by omega)
      have hth := quantileLinear_mono hne h0 h12 h1
      simp only [detect_type1_spike_up]
      rw [if_neg hg, if_neg hg]
      apply List.Sublist.map
      apply List.monotone_filter_right
      intro a ha
      simp only [decide_eq_true_eq] at ha ⊢
      linarith
  exact ⟨hsub, hsub.subset, hsub.length_le⟩

theorem spike_monotone_in_quantile_witness :
    (0 : ℚ) ≤ 1 / 2 ∧ (1 : ℚ) / 2 ≤ 99 / 100 ∧ (99 : ℚ) / 100 ≤ 1 ∧
    ((detect_type1_spike_up scenario1 (99 / 100)).Sublist
        (detect_type1_spike_up scenario1 (1 / 2))
      ∧ detect_type1_spike_up scenario1 (99 / 100)
          ⊆ detect_type1_spike_up scenario1 (1 / 2)
      ∧ (detect_type1_spike_up scenario1 (99 / 100)).length
          ≤ (detect_type1_spike_up scenario1 (1 / 2)).length) :=
  ⟨by norm_num, by norm_num, by norm_num,
    spike_monotone_in_quantile _ _ _ (by norm_num) (by norm_num) (by norm_num)⟩

/-! ## The `defaultdict(list)` model -/

lemma ddLookup_nil {τ : Type} (k : String) :
    ddLookup ([] : List (String × List τ)) k = [] := rfl

lemma ddLookup_ddAppend_self {τ : Type} (d : List (String × List τ)) (k : String)
    (t : τ) : ddLookup (ddAppend d k t) k = ddLookup d k ++ [t] := by
  induction d with
  | nil => simp [ddAppend, ddLookup]
  | cons p rest ih =>
    by_cases h : p.1 = k
    · simp [ddAppend, ddLookup, h]
    · simp [ddAppend, ddLookup, h, ih]

lemma ddLookup_ddAppend_ne {τ : Type} (d : List (String × List τ)) {k' k : String}
    (h : k' ≠ k) (t : τ) : ddLookup (ddAppend d k' t) k = ddLookup d k := by
  have h' : ¬ k = k' := fun he => h he.symm
  induction d with
  | nil => simp [ddAppend, ddLookup, h, h']
  | cons p rest ih =>
    by_cases hp : p.1 = k'
    · simp [ddAppend, ddLookup, hp, h, h']
    · simp [ddAppend, ddLookup, hp, h, h', ih]

lemma mem_ddKeys_ddAppend {τ : Type} {d : List (String × List τ)} {k k' : String}
    {t : τ} (h : k' ∈ ddKeys (ddAppend d k t)) : k' ∈ ddKeys d ∨ k' = k := by
  induction d with
  | nil =>
    simp [ddAppend, ddKeys] at h
    exact Or.inr h
  | cons p rest ih =>
    by_cases hp : p.1 = k
    · simp only [ddAppend, if_pos hp, ddKeys, List.map_cons, List.mem_cons] at h ⊢
      exact Or.inl h
    · simp only [ddAppend, if_neg hp, ddKeys, List.map_cons, List.mem_cons] at h ⊢
      rcases h with h | h
      · exact Or.inl (Or.inl h)
      · rcases ih h with h' | h'
        · exact Or.inl (Or.inr h')
        · exact Or.inr h'

lemma ddLookup_eq_nil_of_not_mem_keys {τ : Type} {d : List (String × List τ)}
    {k : String} (h : k ∉ ddKeys d) : ddLookup d k = [] := by
  induction d with
  | nil => rfl
  | cons p rest ih =>
    simp only [ddKeys, List.map_cons, List.mem_cons, not_or] at h
    have hp : ¬ p.1 = k := fun he => h.1 he.symm
    simp only [ddLookup, if_neg hp]
    exact ih (by simpa [ddKeys] using h.2)

/-- Reading a bucket out of the scan loop: the bucket of `k` collects, in
scan order, the timestamps of the hits whose bucket is `k`. -/
lemma ddLookup_scan {τ : Type} (f : ℕ → Option (String × τ)) (ps : List ℕ)
    (d : List (String × List τ)) (k : String) :
    ddLookup (ps.foldl (fun labels t_pos =>
        match f t_pos with
        | some kt => ddAppend labels kt.1 kt.2
        | none => labels) d) k
      = ddLookup d k
        ++ ((ps.filterMap f).filter (fun kt => decide (kt.1 = k))).map Prod.snd := by
  induction ps generalizing d with
  | nil => simp
  | cons p ps ih =>
    rw [List.foldl_cons, List.filterMap_cons]
    cases hf : f p with
    | none =>
      simp only [hf]
      exact ih d
    | some kt =>
      simp only [hf]
      rw [ih]
      by_cases hk : kt.1 = k
      · rw [← hk]
        rw [List.filter_cons_of_pos (by simp)]
        rw [ddLookup_ddAppend_self]
        simp
      · rw [List.filter_cons_of_neg (by simp [hk])]
        rw [ddLookup_ddAppend_ne _ hk]

lemma mem_ddKeys_scan {τ : Type} (f : ℕ → Option (String × τ)) (ps : List ℕ)
    (d : List (String × List τ)) {k : String}
    (h : k ∈ ddKeys (ps.foldl (fun labels t_pos =>
        match f t_pos with
        | some kt => ddAppend labels kt.1 kt.2
        | none => labels) d)) :
    k ∈ ddKeys d ∨ ∃ p ∈ ps, ∃ kt, f p = some kt ∧ kt.1 = k := by
  induction ps generalizing d with
  | nil => exact Or.inl h
  | cons p ps ih =>
    rw [List.foldl_cons] at h
    cases hf : f p with
    | none =>
      rw [hf] at h
      rcases ih _ h with h' | ⟨p', hp', kt, hkt, hk⟩
      · exact Or.inl h'
      · exact Or.inr ⟨p', List.mem_cons_of_mem _ hp', kt, hkt, hk⟩
    | some kt =>
      rw [hf] at h
      rcases ih _ h with h' | ⟨p', hp', kt', hkt', hk'⟩
      · rcases mem_ddKeys_ddAppend h' with h'' | h''
        · exact Or.inl h''
        · exact Or.inr ⟨p, List.mem_cons_self _ _, kt, hf, h''.symm⟩
      · exact Or.inr ⟨p', List.mem_cons_of_mem _ hp', kt', hkt', hk'⟩

/-! ## Extracting facts from a hit of the scan -/

lemma bucketAt_eq_some_imp {τ : Type} {cs : Series τ} {thH : Option ℚ}
    {th_flat th_trend : ℚ} {w_pre w_post t_pos : ℕ} {k : String}
    (h : bucketAt cs thH th_flat th_trend w_pre w_post t_pos = some k) :
    ∃ gp gc hc, gAt cs (t_pos - 1) = some gp ∧ gAt cs t_pos = some gc
      ∧ hAt cs t_pos = some hc ∧ gp * gc ≤ 0
      ∧ ∃ th, thH = some th ∧ th ≤ |hc| := by
  cases h1 : gAt cs (t_pos - 1) with
  | none => simp [bucketAt, h1] at h
  | some gp =>
  cases h2 : gAt cs t_pos with
  | none => simp [bucketAt, h1, h2] at h
  | some gc =>
  cases h3 : hAt cs t_pos with
  | none => simp [bucketAt, h1, h2, h3] at h
  | some hc =>
  cases thH with
  | none => simp [bucketAt, h1, h2, h3] at h
  | some th =>
    simp only [bucketAt, h1, h2, h3] at h
    cases hb : (decide (gp * gc ≤ 0) && decide (th ≤ |hc|)) with
    | false =>
      rw [hb] at h
      simp at h
    | true =>
      rw [Bool.and_eq_true] at hb
      exact ⟨gp, gc, hc, rfl, rfl, rfl, of_decide_eq_true hb.1, th, rfl,
        of_decide_eq_true hb.2⟩

lemma bucketAt_mem_four {τ : Type} {cs : Series τ} {thH : Option ℚ}
    {th_flat th_trend : ℚ} {w_pre w_post t_pos : ℕ} {k : String}
    (h : bucketAt cs thH th_flat th_trend w_pre w_post t_pos = some k) :
    k ∈ fourPatternNames := by
  cases h1 : gAt cs (t_pos - 1) with
  | none => simp [bucketAt, h1] at h
  | some gp =>
  cases h2 : gAt cs t_pos with
  | none => simp [bucketAt, h1, h2] at h
  | some gc =>
  cases h3 : hAt cs t_pos with
  | none => simp [bucketAt, h1, h2, h3] at h
  | some hc =>
  cases thH with
  | none => simp [bucketAt, h1, h2, h3] at h
  | some th =>
    simp only [bucketAt, h1, h2, h3] at h
    split_ifs at h <;> simp_all [fourPatternNames]

lemma hitOf_eq_some_imp {τ : Type} {cs : Series τ} {thH : Option ℚ}
    {th_flat th_trend : ℚ} {w_pre w_post t_pos : ℕ} {k : String} {t : τ}
    (h : hitOf cs thH th_flat th_trend w_pre w_post t_pos = some (k, t)) :
    (∃ v, (cs[t_pos]?) = some (t, v))
      ∧ bucketAt cs thH th_flat th_trend w_pre w_post t_pos = some k := by
  cases hq : (cs[t_pos]?) with
  | none => simp [hitOf, hq] at h
  | some p =>
  cases hb : bucketAt cs thH th_flat th_trend w_pre w_post t_pos with
  | none => simp [hitOf, hq, hb] at h
  | some k' =>
    obtain ⟨t0, v0⟩ := p
    simp only [hitOf, hq, hb, Option.some.injEq, Prod.mk.injEq] at h
    obtain ⟨hk, ht⟩ := h
    subst hk
    subst ht
    exact ⟨⟨v0, rfl⟩, rfl⟩

/-! ## Characterizing the result of `detect_type2_turn_patterns` -/

lemma detect2_empty_of_small {τ : Type} (r : Series τ) (w_pre w_post : ℕ)
    (q_h q_flat q_trend : ℚ) (hg : (cleanedOf r).length < w_pre + w_post + 4) :
    detect_type2_turn_patterns r w_pre w_post q_h q_flat q_trend = [] := by
  simp only [detect_type2_turn_patterns]
  rw [if_pos hg]

lemma detect2_ddLookup {τ : Type} (r : Series τ) (w_pre w_post : ℕ)
    (q_h q_flat q_trend : ℚ)
    (hg : ¬ (cleanedOf r).length < w_pre + w_post + 4) (k : String) :
    ddLookup (detect_type2_turn_patterns r w_pre w_post q_h q_flat q_trend) k
      = (((List.range' 1 ((cleanedOf r).length - 2)).filterMap
            (hitOf (cleanedOf r) (thHOf (cleanedOf r) q_h)
              (thFlatOf (cleanedOf r) q_flat)
              (thTrendOf (cleanedOf r) q_flat q_trend) w_pre w_post)).filter
          (fun kt => decide (kt.1 = k))).map Prod.snd := by
  simp only [detect_type2_turn_patterns]
  rw [if_neg hg]
  exact (ddLookup_scan
      (hitOf (cleanedOf r) (thHOf (cleanedOf r) q_h) (thFlatOf (cleanedOf r) q_flat)
        (thTrendOf (cleanedOf r) q_flat q_trend) w_pre w_post)
      (List.range' 1 ((cleanedOf r).length - 2)) [] k).trans (by simp [ddLookup])

lemma detect2_mem_lookup {τ : Type} {r : Series τ} {w_pre w_post : ℕ}
    {q_h q_flat q_trend : ℚ} {k : String} {t : τ}
    (hg : ¬ (cleanedOf r).length < w_pre + w_post + 4) :
    t ∈ ddLookup (detect_type2_turn_patterns r w_pre w_post q_h q_flat q_trend) k ↔
      ∃ t_pos ∈ List.range' 1 ((cleanedOf r).length - 2),
        hitOf (cleanedOf r) (thHOf (cleanedOf r) q_h) (thFlatOf (cleanedOf r) q_flat)
          (thTrendOf (cleanedOf r) q_flat q_trend) w_pre w_post t_pos = some (k, t) := by
  rw [detect2_ddLookup r _ _ _ _ _ hg k]
  constructor
  · intro ht
    obtain ⟨kt, hmem, hsnd⟩ := List.mem_map.mp ht
    obtain ⟨hfm, hkeq⟩ := List.mem_filter.mp hmem
    obtain ⟨p, hp, hf⟩ := List.mem_filterMap.mp hfm
    obtain ⟨k1, t1⟩ := kt
    have hk1 : k1 = k := by simpa using hkeq
    have ht1 : t1 = t := hsnd
    subst hk1
    subst ht1
    exact ⟨p, hp, hf⟩
  · rintro ⟨p, hp, hf⟩
    exact List.mem_map.mpr ⟨(k, t),
      List.mem_filter.mpr ⟨List.mem_filterMap.mpr ⟨p, hp, hf⟩, by simp⟩, rfl⟩

lemma detect2_keys_subset {τ : Type} (r : Series τ) (w_pre w_post : ℕ)
    (q_h q_flat q_trend : ℚ) :
    ddKeys (detect_type2_turn_patterns r w_pre w_post q_h q_flat q_trend)
      ⊆ fourPatternNames := by
  intro k hk
  by_cases hg : (cleanedOf r).length < w_pre + w_post + 4
  · rw [detect2_empty_of_small r _ _ _ _ _ hg] at hk
    simp [ddKeys] at hk
  · simp only [detect_type2_turn_patterns] at hk
    rw [if_neg hg] at hk
    rcases mem_ddKeys_scan _ _ _ hk with h' | ⟨p, _, kt, hkt, hke⟩
    · simp [ddKeys] at h'
    · obtain ⟨k1, t1⟩ := kt
      obtain ⟨_, hb⟩ := hitOf_eq_some_imp hkt
      have h4 := bucketAt_mem_four hb
      obtain rfl : k1 = k := hke
      exact h4

/-! ## Buckets are chronologically ordered sublists of the cleaned series -/

lemma filterMap_increasing_sublist {α : Type} (l : List α) (g : ℕ → Option α)
    (hg : ∀ p a, g p = some a → (l[p]?) = some a) :
    ∀ (ps : List ℕ) (lo : ℕ), (∀ p ∈ ps, lo ≤ p) → ps.Pairwise (· < ·) →
      (ps.filterMap g).Sublist (l.drop lo) := by
  intro ps
  induction ps with
  | nil =>
    intro lo _ _
    simp
  | cons p ps ih =>
    intro lo hlo hpair
    rw [List.filterMap_cons]
    have hppair := List.pairwise_cons.mp hpair
    cases hgp : g p with
    | none => exact ih lo (fun x hx => hlo x (List.mem_cons_of_mem _ hx)) hppair.2
    | some a =>
      have hget := hg p a hgp
      have hlp : p < l.length := by
        by_contra hcon
        push_neg at hcon
        rw [List.getElem?_eq_none hcon] at hget
        cases hget
      have hdropp : l.drop p = a :: l.drop (p + 1) := by
        rw [List.drop_eq_getElem_cons hlp]
        congr 1
        have he := List.getElem?_eq_getElem hlp
        rw [he] at hget
        exact Option.some.inj hget
      have ht : (a :: ps.filterMap g).Sublist (l.drop p) := by
        rw [hdropp]
        exact (ih (p + 1) (fun x hx => hppair.1 x hx) hppair.2).cons₂ a
      have hd2 : (l.drop p).Sublist (l.drop lo) := by
        have he : l.drop p = (l.drop lo).drop (p - lo) := by
          rw [List.drop_drop]
          congr 1
          have := hlo p (List.mem_cons_self p ps)
          omega
        rw [he]
        exact List.drop_sublist _ _
      exact ht.trans hd2

lemma scanned_bucket_eq_filterMap {τ : Type} (f : ℕ → Option (String × τ))
    (ps : List ℕ) (k : String) :
    ((ps.filterMap f).filter (fun kt => decide (kt.1 = k))).map Prod.snd
      = ps.filterMap
          (fun p => (f p).bind (fun kt => if kt.1 = k then some kt.2 else none)) := by
  induction ps with
  | nil => rfl
  | cons p ps ih =>
    rw [List.filterMap_cons, List.filterMap_cons]
    cases hf : f p with
    | none => simpa using ih
    | some kt =>
      by_cases hk : kt.1 = k
      · rw [List.filter_cons_of_pos (by simp [hk])]
        simp [hk, ih]
      · rw [List.filter_cons_of_neg (by simp [hk])]
        simp [hk, ih]

lemma detect2_lookup_sublist {τ : Type} (r : Series τ) (w_pre w_post : ℕ)
    (q_h q_flat q_trend : ℚ) (k : String) :
    (ddLookup (detect_type2_turn_patterns r w_pre w_post q_h q_flat q_trend) k).Sublist
      ((cleanedOf r).map Prod.fst) := by
  by_cases hg : (cleanedOf r).length < w_pre + w_post + 4
  · rw [detect2_empty_of_small r _ _ _ _ _ hg]
    exact List.nil_sublist _
  · rw [detect2_ddLookup r _ _ _ _ _ hg k, scanned_bucket_eq_filterMap]
    have hps : (List.range' 1 ((cleanedOf r).length - 2)).Pairwise (· < ·) :=
      List.pairwise_lt_range' _ _
    have h0 : ∀ p ∈ List.range' 1 ((cleanedOf r).length - 2), 0 ≤ p :=
      fun p _ => Nat.zero_le p
    have hmain := filterMap_increasing_sublist ((cleanedOf r).map Prod.fst)
      (fun p => (hitOf (cleanedOf r) (thHOf (cleanedOf r) q_h)
          (thFlatOf (cleanedOf r) q_flat) (thTrendOf (cleanedOf r) q_flat q_trend)
          w_pre w_post p).bind (fun kt => if kt.1 = k then some kt.2 else none))
      ?_ (List.range' 1 ((cleanedOf r).length - 2)) 0 h0 hps
    · simpa using hmain
    · intro p t' hp
      have hp' : (hitOf (cleanedOf r) (thHOf (cleanedOf r) q_h)
          (thFlatOf (cleanedOf r) q_flat) (thTrendOf (cleanedOf r) q_flat q_trend)
          w_pre w_post p).bind
            (fun kt => if kt.1 = k then some kt.2 else none) = some t' := hp
      cases hh : hitOf (cleanedOf r) (thHOf (cleanedOf r) q_h)
          (thFlatOf (cleanedOf r) q_flat) (thTrendOf (cleanedOf r) q_flat q_trend)
          w_pre w_post p with
      | none => rw [hh, Option.none_bind] at hp'; cases hp'
      | some kt =>
        obtain ⟨k1, t1⟩ := kt
        rw [hh, Option.some_bind] at hp'
        split at hp'
        · obtain ⟨⟨v, hv⟩, _⟩ := hitOf_eq_some_imp hh
          rw [List.getElem?_map, hv]
          simpa using Option.some.inj hp'
        · cases hp'

/-! ## After `dropna`, every scanned value is defined -/

lemma mem_cleanedOf_isSome {τ : Type} {r : Series τ} {p : τ × Option ℚ}
    (hp : p ∈ cleanedOf r) : p.2.isSome = true :=
  (List.mem_filter.mp hp).2

lemma gAt_cleaned_isSome {τ : Type} (r : Series τ) {i : ℕ}
    (hi : i < (cleanedOf r).length) : (gAt (cleanedOf r) i).isSome = true := by
  rw [gAt, List.getElem?_eq_getElem hi]
  have hmem := List.getElem_mem hi
  simpa using mem_cleanedOf_isSome hmem

lemma hAt_cleaned_isSome {τ : Type} (r : Series τ) {i : ℕ} (h0 : i ≠ 0)
    (hi : i < (cleanedOf r).length) : (hAt (cleanedOf r) i).isSome = true := by
  have h1 := gAt_cleaned_isSome r hi
  have h2 := gAt_cleaned_isSome r (show i - 1 < (cleanedOf r).length by omega)
  obtain ⟨a, ha⟩ := Option.isSome_iff_exists.mp h1
  obtain ⟨b, hb⟩ := Option.isSome_iff_exists.mp h2
  rw [hAt, if_neg h0]
  simp [ha, hb]

lemma cleanedOf_eq_map_dropna {τ : Type} (r : Series τ) :
    cleanedOf r = (dropna r).map (fun p => (p.1, some p.2)) := by
  induction r with
  | nil => rfl
  | cons p r ih =>
    obtain ⟨t, v⟩ := p
    cases v with
    | none => simpa [cleanedOf, List.filter_cons, dropna_cons_none] using ih
    | some v => simpa [cleanedOf, List.filter_cons, dropna_cons_some] using ih

/-! ## The turn detector: claims C2, C3, C4, C7, C8, C9, C10 -/

/-- C2: every timestamp placed in a bucket comes from an interior position of
the cleaned series where the turn condition (sign change `g[t-1]*g[t] ≤ 0`
and `|h[t]| ≥ th_h`) holds; and when the series' timestamps are unique, a
timestamp sits in at most one bucket. -/
theorem turn_condition_and_disjoint_buckets {τ : Type} (r : Series τ)
    (w_pre w_post : ℕ) (q_h q_flat q_trend : ℚ) (k k2 : String) (t : τ)
    (ht : t ∈ ddLookup (detect_type2_turn_patterns r w_pre w_post q_h q_flat q_trend) k)
    (ht2 : t ∈ ddLookup (detect_type2_turn_patterns r w_pre w_post q_h q_flat q_trend) k2) :
    (∃ t_pos : ℕ, 1 ≤ t_pos ∧ t_pos + 1 < (cleanedOf r).length
        ∧ (∃ v, ((cleanedOf r)[t_pos]?) = some (t, v))
        ∧ (∃ gp gc hc, gAt (cleanedOf r) (t_pos - 1) = some gp
            ∧ gAt (cleanedOf r) t_pos = some gc
            ∧ hAt (cleanedOf r) t_pos = some hc
            ∧ gp * gc ≤ 0
            ∧ ∃ th, thHOf (cleanedOf r) q_h = some th ∧ th ≤ |hc|))
      ∧ ((r.map Prod.fst).Nodup → k2 = k) := by
  by_cases hg : (cleanedOf r).length < w_pre + w_post + 4
  · rw [detect2_empty_of_small r _ _ _ _ _ hg] at ht
    cases ht
  · have hn : w_pre + w_post + 4 ≤ (cleanedOf r).length := not_lt.mp hg
    obtain ⟨p, hp, hf⟩ := (detect2_mem_lookup hg).mp ht
    obtain ⟨hp1, hp2⟩ := List.mem_range'_1.mp hp
    have hplt : p + 1 < (cleanedOf r).length := by omega
    obtain ⟨⟨v, hv⟩, hb⟩ := hitOf_eq_some_imp hf
    obtain ⟨gp, gc, hc, h1, h2, h3, hcond, th, hth, hle⟩ := bucketAt_eq_some_imp hb
    refine ⟨⟨p, hp1, hplt, ⟨v, hv⟩, gp, gc, hc, h1, h2, h3, hcond, th, hth, hle⟩, ?_⟩
    intro hnd
    obtain ⟨p', hp', hf'⟩ := (detect2_mem_lookup hg).mp ht2
    obtain ⟨⟨v', hv'⟩, _⟩ := hitOf_eq_some_imp hf'
    have hmt : (((cleanedOf r).map Prod.fst)[p]?) = some t := by
      rw [List.getElem?_map, hv]
      rfl
    have hmt' : (((cleanedOf r).map Prod.fst)[p']?) = some t := by
      rw [List.getElem?_map, hv']
      rfl
    have hsub0 : (cleanedOf r).Sublist r := List.filter_sublist r
    have hndc : ((cleanedOf r).map Prod.fst).Nodup :=
      List.Nodup.sublist (hsub0.map Prod.fst) hnd
    have hlenp : p < ((cleanedOf r).map Prod.fst).length := by
      rw [List.length_map]
      omega
    have hpp : p = p' := List.getElem?_inj hlenp hndc (hmt.trans hmt'.symm)
    subst hpp
    have hkk := Option.some.inj (hf.symm.trans hf')
    exact (congrArg Prod.fst hkk).symm

theorem turn_condition_and_disjoint_buckets_witness :
    (1 : ℕ) ∈ ddLookup
        (detect_type2_turn_patterns crossingRise 3 3 (9/10) (1/5) (7/10))
        "down_turn_flat"
      ∧ ((∃ t_pos : ℕ, 1 ≤ t_pos ∧ t_pos + 1 < (cleanedOf crossingRise).length
            ∧ (∃ v, ((cleanedOf crossingRise)[t_pos]?) = some (1, v))
            ∧ (∃ gp gc hc, gAt (cleanedOf crossingRise) (t_pos - 1) = some gp
                ∧ gAt (cleanedOf crossingRise) t_pos = some gc
                ∧ hAt (cleanedOf crossingRise) t_pos = some hc
                ∧ gp * gc ≤ 0
                ∧ ∃ th, thHOf (cleanedOf crossingRise) (9/10) = some th ∧ th ≤ |hc|))
          ∧ ((crossingRise.map Prod.fst).Nodup → "down_turn_flat" = "down_turn_flat")) :=
  ⟨by with_unfolding_all decide,
    turn_condition_and_disjoint_buckets crossingRise 3 3 (9/10) (1/5) (7/10)
      "down_turn_flat" "down_turn_flat" 1
      (by with_unfolding_all decide) (by with_unfolding_all decide)⟩

/-- C3 counterexample: on the empty input series the returned
`defaultdict(list)` has materialized no keys at all, so the mapping does not
literally contain the four pattern keys. -/
theorem turns_always_four_keys_counterexample :
    ddKeys (detect_type2_turn_patterns ([] : Series ℕ) 3 3 (9/10) (1/5) (7/10)) = []
      ∧ "down_turn_flat"
          ∉ ddKeys (detect_type2_turn_patterns ([] : Series ℕ) 3 3 (9/10) (1/5) (7/10)) := by
  constructor
  · with_unfolding_all rfl
  · with_unfolding_all decide

/-- C3 amended: the mapping is defaultdict-like rather than eagerly four-keyed:
every key it materializes is one of the four pattern names, and looking up any
key outside the materialized ones — in particular any of the four when no turn
of that pattern was found — yields the empty list rather than failing. -/
theorem turns_materialized_keys {τ : Type} (r : Series τ) (w_pre w_post : ℕ)
    (q_h q_flat q_trend : ℚ) (k : String) :
    ddKeys (detect_type2_turn_patterns r w_pre w_post q_h q_flat q_trend)
        ⊆ fourPatternNames
      ∧ (k ∈ ddKeys (detect_type2_turn_patterns r w_pre w_post q_h q_flat q_trend)
          ∨ ddLookup (detect_type2_turn_patterns r w_pre w_post q_h q_flat q_trend) k
              = []) := by
  refine ⟨detect2_keys_subset r _ _ _ _ _, ?_⟩
  by_cases hk : k ∈ ddKeys (detect_type2_turn_patterns r w_pre w_post q_h q_flat q_trend)
  · exact Or.inl hk
  · exact Or.inr (ddLookup_eq_nil_of_not_mem_keys hk)

/-- C4: with fewer than `w_pre + w_post + 4` non-missing points, every bucket
of the result is empty and no error is raised. -/
theorem turns_insufficient_data {τ : Type} (r : Series τ) (w_pre w_post : ℕ)
    (q_h q_flat q_trend : ℚ) (k : String)
    (h : (cleanedOf r).length < w_pre + w_post + 4) :
    ddLookup (detect_type2_turn_patterns r w_pre w_post q_h q_flat q_trend) k = [] := by
  rw [detect2_empty_of_small r _ _ _ _ _ h]
  rfl

theorem turns_insufficient_data_witness :
    (cleanedOf ([(0, some 1), (1, none), (2, some 2)] : Series ℕ)).length < 3 + 3 + 4
      ∧ ddLookup
          (detect_type2_turn_patterns ([(0, some 1), (1, none), (2, some 2)] : Series ℕ)
            3 3 (9/10) (1/5) (7/10)) "down_turn_flat" = [] :=
  ⟨by with_unfolding_all decide,
    turns_insufficient_data _ 3 3 (9/10) (1/5) (7/10) "down_turn_flat"
      (by with_unfolding_all decide)⟩

/-- C9: after the initial missing-value removal, at every interior scan
position the two neighbouring series values and the difference are all
defined, so the `pd.isna` skip branch in the loop is unreachable. -/
theorem turn_scan_values_defined {τ : Type} (r : Series τ) (t_pos : ℕ)
    (h1 : 1 ≤ t_pos) (h2 : t_pos + 1 < (cleanedOf r).length) :
    (gAt (cleanedOf r) (t_pos - 1)).isSome = true
      ∧ (gAt (cleanedOf r) t_pos).isSome = true
      ∧ (hAt (cleanedOf r) t_pos).isSome = true :=
  ⟨gAt_cleaned_isSome r (by omega), gAt_cleaned_isSome r (by omega),
    hAt_cleaned_isSome r (by omega) (by omega)⟩

theorem turn_scan_values_defined_witness :
    1 ≤ 1 ∧ 1 + 1 < (cleanedOf twentyPos).length
      ∧ ((gAt (cleanedOf twentyPos) (1 - 1)).isSome = true
          ∧ (gAt (cleanedOf twentyPos) 1).isSome = true
          ∧ (hAt (cleanedOf twentyPos) 1).isSome = true) := by
  refine ⟨le_refl 1, by with_unfolding_all decide, ?_⟩
  exact turn_scan_values_defined twentyPos 1 (le_refl 1) (by with_unfolding_all decide)

/-- C10: the detector only ever materializes keys among the four pattern
names, and each bucket lists timestamps in increasing position order of the
cleaned series (it is a sublist of the cleaned timestamp sequence). -/
theorem turns_keys_subset_and_chronological {τ : Type} (r : Series τ)
    (w_pre w_post : ℕ) (q_h q_flat q_trend : ℚ) (k : String) :
    ddKeys (detect_type2_turn_patterns r w_pre w_post q_h q_flat q_trend)
        ⊆ fourPatternNames
      ∧ (ddLookup (detect_type2_turn_patterns r w_pre w_post q_h q_flat q_trend) k).Sublist
          ((cleanedOf r).map Prod.fst) :=
  ⟨detect2_keys_subset r _ _ _ _ _, detect2_lookup_sublist r _ _ _ _ _ k⟩

/-- C8 counterexample: a strictly monotonically increasing series of 20
non-missing points for which `detect_type2_turn_patterns` (default
parameters) returns a non-empty bucket: the series crosses zero between
positions 0 and 1 with a huge step, so the turn condition fires there and the
point is classified `down_turn_flat`. -/
theorem monotone_increasing_turns_counterexample :
    crossingRise.length = 20
      ∧ crossingRise.all (fun p => p.2.isSome) = true
      ∧ List.Pairwise (· < ·) (crossingRise.filterMap Prod.snd)
      ∧ ddLookup (detect_type2_turn_patterns crossingRise 3 3 (9/10) (1/5) (7/10))
          "down_turn_flat" = [1] := by
  refine ⟨rfl, rfl, ?_, ?_⟩
  · with_unfolding_all decide
  · with_unfolding_all decide

/-- C8 amended: for every strictly monotonically increasing series of 20
non-missing points that never touches or crosses zero (all values strictly
positive, or all strictly negative), `detect_type2_turn_patterns` with default
parameters returns all four buckets empty. -/
theorem monotone_same_sign_turns_empty {τ : Type} (r : Series τ) (k : String)
    (hlen : r.length = 20)
    (hall : r.all (fun p => p.2.isSome) = true)
    (hmono : List.Pairwise (· < ·) (r.filterMap Prod.snd))
    (hsign : (r.filterMap Prod.snd).all (fun v => decide (0 < v)) = true
        ∨ (r.filterMap Prod.snd).all (fun v => decide (v < 0)) = true) :
    ddLookup (detect_type2_turn_patterns r 3 3 (9/10) (1/5) (7/10)) k = [] := by
  have hprod : ∀ a b : ℚ, a ∈ r.filterMap Prod.snd → b ∈ r.filterMap Prod.snd →
      ¬ (a * b ≤ 0) := by
    rcases hsign with hs | hs
    · intro a b ha hb hc
      have ha' := of_decide_eq_true (List.all_eq_true.mp hs a ha)
      have hb' := of_decide_eq_true (List.all_eq_true.mp hs b hb)
      nlinarith
    · intro a b ha hb hc
      have ha' := of_decide_eq_true (List.all_eq_true.mp hs a ha)
      have hb' := of_decide_eq_true (List.all_eq_true.mp hs b hb)
      nlinarith
  have hgmem : ∀ i v, gAt (cleanedOf r) i = some v → v ∈ r.filterMap Prod.snd := by
    intro i v hgi
    rw [gAt] at hgi
    cases hq : ((cleanedOf r)[i]?) with
    | none => rw [hq] at hgi; cases hgi
    | some p =>
      rw [hq, Option.some_bind] at hgi
      have hpmem : p ∈ cleanedOf r := List.getElem?_mem hq
      have hpr : p ∈ r := List.mem_of_mem_filter hpmem
      exact List.mem_filterMap.mpr ⟨p, hpr, hgi⟩
  have hbnone : ∀ t_pos, bucketAt (cleanedOf r) (thHOf (cleanedOf r) (9/10))
      (thFlatOf (cleanedOf r) (1/5)) (thTrendOf (cleanedOf r) (1/5) (7/10))
      3 3 t_pos = none := by
    intro t_pos
    cases h1 : gAt (cleanedOf r) (t_pos - 1) with
    | none => simp [bucketAt, h1]
    | some gp =>
    cases h2 : gAt (cleanedOf r) t_pos with
    | none => simp [bucketAt, h1, h2]
    | some gc =>
    cases h3 : hAt (cleanedOf r) t_pos with
    | none => simp [bucketAt, h1, h2, h3]
    | some hc =>
      have hnle := hprod gp gc (hgmem _ _ h1) (hgmem _ _ h2)
      simp only [bucketAt, h1, h2, h3]
      rw [show decide (gp * gc ≤ 0) = false from decide_eq_false hnle]
      simp
  by_cases hg : (cleanedOf r).length < 3 + 3 + 4
  · rw [detect2_empty_of_small r _ _ _ _ _ hg]
    rfl
  · rw [detect2_ddLookup r _ _ _ _ _ hg k]
    have hnil : (List.range' 1 ((cleanedOf r).length - 2)).filterMap
        (hitOf (cleanedOf r) (thHOf (cleanedOf r) (9/10))
          (thFlatOf (cleanedOf r) (1/5)) (thTrendOf (cleanedOf r) (1/5) (7/10))
          3 3) = [] := by
      rw [List.filterMap_eq_nil_iff]
      intro p _
      simp only [hitOf]
      rw [hbnone p]
      cases ((cleanedOf r)[p]?) <;> rfl
    rw [hnil]
    rfl

theorem monotone_same_sign_turns_empty_witness :
    twentyPos.length = 20
      ∧ twentyPos.all (fun p => p.2.isSome) = true
      ∧ List.Pairwise (· < ·) (twentyPos.filterMap Prod.snd)
      ∧ ((twentyPos.filterMap Prod.snd).all (fun v => decide (0 < v)) = true
          ∨ (twentyPos.filterMap Prod.snd).all (fun v => decide (v < 0)) = true)
      ∧ ddLookup (detect_type2_turn_patterns twentyPos 3 3 (9/10) (1/5) (7/10))
          "down_turn_flat" = [] :=
  ⟨rfl, rfl, by with_unfolding_all decide, Or.inl (by with_unfolding_all decide),
    monotone_same_sign_turns_empty twentyPos "down_turn_flat" rfl rfl
      (by with_unfolding_all decide) (Or.inl (by with_unfolding_all decide))⟩

/-- C7: both detectors factor through missing-value removal — two series with
the same cleaned form give identical outputs for all parameters — and when
timestamps are unique, the timestamp of a missing entry never shows up in
either detector's output. -/
theorem missing_values_inert {τ : Type} (r1 r2 : Series τ) (w_pre w_post : ℕ)
    (q_up q_h q_flat q_trend : ℚ) (t : τ) (k : String)
    (hd : dropna r1 = dropna r2)
    (hmem : (t, (none : Option ℚ)) ∈ r1)
    (hnd : (r1.map Prod.fst).Nodup) :
    detect_type1_spike_up r1 q_up = detect_type1_spike_up r2 q_up
      ∧ detect_type2_turn_patterns r1 w_pre w_post q_h q_flat q_trend
          = detect_type2_turn_patterns r2 w_pre w_post q_h q_flat q_trend
      ∧ t ∉ detect_type1_spike_up r1 q_up
      ∧ t ∉ ddLookup (detect_type2_turn_patterns r1 w_pre w_post q_h q_flat q_trend) k := by
  have hc : cleanedOf r1 = cleanedOf r2 := by
    rw [cleanedOf_eq_map_dropna, cleanedOf_eq_map_dropna, hd]
  have e1 : detect_type1_spike_up r1 q_up = detect_type1_spike_up r2 q_up := by
    simp only [detect_type1_spike_up, hd]
  have e2 : detect_type2_turn_patterns r1 w_pre w_post q_h q_flat q_trend
      = detect_type2_turn_patterns r2 w_pre w_post q_h q_flat q_trend := by
    simp only [detect_type2_turn_patterns, hc]
  have key : ∀ v : ℚ, (t, some v) ∈ r1 → False := by
    intro v hv
    have hcontr : (t, some v) = (t, (none : Option ℚ)) :=
      List.inj_on_of_nodup_map hnd hv hmem rfl
    simpa using congrArg Prod.snd hcontr
  have h3 : t ∉ detect_type1_spike_up r1 q_up := by
    intro htin
    by_cases hg : (dropna r1).length < 5
    · simp [detect_type1_spike_up, hg] at htin
    · simp only [detect_type1_spike_up] at htin
      rw [if_neg hg] at htin
      obtain ⟨p, hpmem, hfst⟩ := List.mem_map.mp htin
      have hpd : p ∈ dropna r1 := List.mem_of_mem_filter hpmem
      have hpr : (p.1, some p.2) ∈ r1 := mem_dropna.mp hpd
      rw [hfst] at hpr
      exact key p.2 hpr
  have h4 : t ∉ ddLookup (detect_type2_turn_patterns r1 w_pre w_post q_h q_flat q_trend) k := by
    intro htin
    have hsub := detect2_lookup_sublist r1 w_pre w_post q_h q_flat q_trend k
    have hmem2 : t ∈ (cleanedOf r1).map Prod.fst := hsub.subset htin
    obtain ⟨p, hpmem, hfst⟩ := List.mem_map.mp hmem2
    have hpr : p ∈ r1 := List.mem_of_mem_filter hpmem
    have hps : p.2.isSome = true := mem_cleanedOf_isSome hpmem
    obtain ⟨v, hv⟩ := Option.isSome_iff_exists.mp hps
    have hpr' : (p.1, p.2) ∈ r1 := by simpa using hpr
    rw [hv] at hpr'
    rw [hfst] at hpr'
    exact key v hpr'
  exact ⟨e1, e2, h3, h4⟩

theorem missing_values_inert_witness :
    dropna withGap = dropna withoutGap
      ∧ ((1 : ℕ), (none : Option ℚ)) ∈ withGap
      ∧ (withGap.map Prod.fst).Nodup
      ∧ (detect_type1_spike_up withGap (99/100) = detect_type1_spike_up withoutGap (99/100)
          ∧ detect_type2_turn_patterns withGap 3 3 (9/10) (1/5) (7/10)
              = detect_type2_turn_patterns withoutGap 3 3 (9/10) (1/5) (7/10)
          ∧ (1 : ℕ) ∉ detect_type1_spike_up withGap (99/100)
          ∧ (1 : ℕ) ∉ ddLookup (detect_type2_turn_patterns withGap 3 3 (9/10) (1/5) (7/10))
              "down_turn_flat") :=
  ⟨by with_unfolding_all decide, by with_unfolding_all decide,
    by with_unfolding_all decide,
    missing_values_inert withGap withoutGap 3 3 (99/100) (9/10) (1/5) (7/10) 1
      "down_turn_flat" (by with_unfolding_all decide) (by with_unfolding_all decide)
      (by with_unfolding_all decide)⟩

end AnomalyDetection
